import Mathlib

/-!
# Verification of the BevoNetBackup snapshot lifecycle and diff engine

A shallow embedding, in Lean 4, of the core of the BevoNetBackup repository:

* `scripts/diff_checker.py` — text normalizer (`filter_ignored_lines`),
  positional diff engine (`compare_configs`), snapshot listing
  (`get_all_backups_for_device`) and the latest-two selector
  (`compare_latest_two_backups`);
* `scripts/mock_backup_tool.py` — per-device backup (`backup_single_device`)
  and the fleet orchestrator (`backup_all_devices`).

Python strings are modelled as Lean `String` (lists of characters);
`str.splitlines`, `str.strip`, `str.startswith` and `'\n'.join` are embedded
below.  The filesystem is modelled as a pure map from path to optional
content; reading a missing path corresponds to the `except` branch of the
Python code.  Current wall-clock time and the random failures of the mock
device session are passed in as explicit parameters.  Log statements,
`print` calls and the auxiliary `_info.json` / `backup_results.json` report
files' contents are elided: only the names of files written by a backup are
tracked, which is what the claims about snapshot creation need.
-/

namespace BevoNet

/-! ## Python string primitives -/

/-- The line-break characters recognised by Python `str.splitlines`
(the `'\r' '\n'` pair is treated as a single break by `splitlinesGo`). -/
def isLineBreak (c : Char) : Bool :=
  c = '\n' || c = '\r' || c = '\x0b' || c = '\x0c' ||
  c = '\x1c' || c = '\x1d' || c = '\x1e' || c = '\x85' ||
  c = '\u2028' || c = '\u2029'

/-- Characters stripped by Python `str.strip()`. -/
def isPySpace (c : Char) : Bool :=
  c = ' ' || c = '\t' || c = '\n' || c = '\r' || c = '\x0b' || c = '\x0c' ||
  c = '\x1c' || c = '\x1d' || c = '\x1e' || c = '\x85' || c = '\xa0'

/-- Worker for `str.splitlines`: `cur` is the current line, reversed.
A line break ending the input does not open a new (empty) line,
matching Python: `"a\n".splitlines() == ["a"]`. -/
def splitlinesGo : List Char → List Char → List (List Char)
  | [], cur => [cur.reverse]
  | c :: t, cur =>
    if isLineBreak c then
      match t with
      | [] => [cur.reverse]
      | d :: t2 =>
        if c = '\r' && d = '\n' then
          (if t2 = [] then [cur.reverse] else cur.reverse :: splitlinesGo t2 [])
        else cur.reverse :: splitlinesGo (d :: t2) []
    else splitlinesGo t (c :: cur)

/-- Python `str.splitlines` on a list of characters;
the empty string yields no lines. -/
def splitlinesL (s : List Char) : List (List Char) :=
  if s = [] then [] else splitlinesGo s []

/-- Python `str.splitlines`. -/
def splitlines (s : String) : List String :=
  (splitlinesL s.toList).map List.asString

/-- Python `str.strip()` on a list of characters. -/
def stripL (l : List Char) : List Char :=
  ((l.dropWhile isPySpace).reverse.dropWhile isPySpace).reverse

/-- Python `str.strip()`. -/
def py_strip (s : String) : String :=
  (stripL s.toList).asString

/-- Python `s.startswith(p)`. -/
def py_startswith (s p : String) : Bool :=
  p.toList.isPrefixOf s.toList

/-- Python `'\n'.join` on lists of characters. -/
def joinC (ls : List (List Char)) : List Char :=
  List.intercalate ['\n'] ls

/-- Python `'\n'.join(lines)`. -/
def joinNL (ls : List String) : String :=
  (joinC (ls.map String.toList)).asString

/-! ## Text normalizer (`ConfigDiffChecker.filter_ignored_lines`) -/

/-- `default_patterns` in `ConfigDiffChecker.load_ignore_patterns`. -/
def default_patterns : List String :=
  ["! Last configuration change",
   "! NVRAM config last updated",
   "!Time:",
   "!",
   "#"]

/-- The inner loop of `filter_ignored_lines`: `line.strip().startswith(pattern)`
tested over `self.ignore_patterns`, first match wins. -/
def matchesIgnore (patterns : List String) (line : String) : Bool :=
  patterns.any (fun pattern => py_startswith (py_strip line) pattern)

/-- The `filtered_lines` accumulator loop of
`ConfigDiffChecker.filter_ignored_lines`. -/
def filtered_lines (patterns : List String) (config_content : String) :
    List String :=
  (splitlines config_content).foldl
    (fun acc line => if matchesIgnore patterns line then acc else acc ++ [line])
    []

/-- `ConfigDiffChecker.filter_ignored_lines`: empty (falsy) input returns `""`
at once; otherwise ignored lines are dropped and the rest re-joined with
`'\n'`. -/
def filter_ignored_lines (patterns : List String) (config_content : String) :
    String :=
  if config_content = "" then ""
  else joinNL (filtered_lines patterns config_content)

example : splitlines "a\nb\nc" = ["a", "b", "c"] := by decide
example : splitlines "a\r\nb\r" = ["a", "b"] := by decide
example : splitlines "a\n\n" = ["a", ""] := by decide
example : filter_ignored_lines default_patterns "!\nhostname x\n!\nend"
    = "hostname x\nend" := by decide
example : filter_ignored_lines default_patterns "a\n\n" = "a\n" := by decide
example : filter_ignored_lines default_patterns "a\n" = "a" := by decide

/-! ## Diff engine (`ConfigDiffChecker.compare_configs`) -/

/-- One entry of the `differences` list built by `compare_configs`. -/
structure DiffRecord where
  line_number : Nat
  old_value : String
  new_value : String
deriving DecidableEq, Repr

/-- The comparison loop of `compare_configs`: for `i in range(max_lines)`,
out-of-range lines read as `""`, and a record is appended when the two
lines differ. -/
def computeDiffs (lines1 lines2 : List String) : List DiffRecord :=
  (List.range (max lines1.length lines2.length)).foldl
    (fun acc i =>
      let line1 := lines1.getD i ""
      let line2 := lines2.getD i ""
      if line1 != line2 then
        acc ++ [{ line_number := i + 1, old_value := line1, new_value := line2 }]
      else acc)
    []

/-- The dictionary returned by `compare_configs`.  The success branch fills
`config1_file`, `config2_file` and `comparison_date` and leaves `error`
absent; the `except` branch does the opposite — absent keys are `none`. -/
structure ComparisonResult where
  identical : Bool
  differences_count : Nat
  summary : String
  differences : List DiffRecord
  device : String
  config1_file : Option String
  config2_file : Option String
  comparison_date : Option String
  error : Option String
deriving DecidableEq, Repr

/-- `Path(p).name`: the part of the path after the last `/`. -/
def pathName (p : String) : String :=
  ((p.toList.reverse.takeWhile (fun c => c ≠ '/')).reverse).asString

/-- The message of the exception raised when `Path(p).read_text()` fails on a
missing file. -/
def readErrorMsg (fs : String → Option String) (p1 p2 : String) : String :=
  "[Errno 2] No such file or directory: " ++
    (if fs p1 = none then p1 else p2)

/-- `ConfigDiffChecker.compare_configs`.  `fs` is the filesystem (path to
optional content), `now` is the value of `datetime.now().isoformat()`.
Reading either path fails exactly when `fs` has no entry for it, which
lands in the `except` branch. -/
def compare_configs (patterns : List String) (fs : String → Option String)
    (now : String) (config1_path config2_path device_name : String) :
    ComparisonResult :=
  match fs config1_path, fs config2_path with
  | some config1_content, some config2_content =>
    let filtered1 := filter_ignored_lines patterns config1_content
    let filtered2 := filter_ignored_lines patterns config2_content
    let lines1 := splitlines filtered1
    let lines2 := splitlines filtered2
    let differences := computeDiffs lines1 lines2
    let identical := differences.length == 0
    { identical := identical
      differences_count := differences.length
      summary := if identical then "Configurations are identical"
                 else "Found " ++ toString differences.length ++ " differences"
      differences := differences
      device := device_name
      config1_file := some (pathName config1_path)
      config2_file := some (pathName config2_path)
      comparison_date := some now
      error := none }
  | _, _ =>
    let msg := readErrorMsg fs config1_path config2_path
    { identical := false
      differences_count := 0
      summary := "Comparison error: " ++ msg
      differences := []
      device := device_name
      config1_file := none
      config2_file := none
      comparison_date := none
      error := some msg }

/-! ## Snapshot store and latest-two selector -/

/-- Whether filename `f` matches the glob `{device_name}_*.cfg` used by
`get_all_backups_for_device` (`*` may be empty and filenames contain no
path separator). -/
def globMatches (device_name f : String) : Bool :=
  (device_name ++ "_").toList.isPrefixOf f.toList &&
    ".cfg".toList.isSuffixOf (f.toList.drop (device_name ++ "_").toList.length)

/-- Code-point lexicographic strict comparison of character lists —
Python's `<` on strings (executable version of `List.Lex (· < ·)`,
which is what Lean's `String` order also unfolds to). -/
def charListLt : List Char → List Char → Bool
  | [], [] => false
  | [], _ :: _ => true
  | _ :: _, [] => false
  | a :: as, b :: bs => if a < b then true else if b < a then false else charListLt as bs

/-- Python's `y <= x` on strings (total code-point order). -/
def pyStrLeb (y x : String) : Bool :=
  !charListLt x.toList y.toList

/-- Stable insertion into a descending-sorted list: the inserted element
goes before later-listed equal elements, as Python's stable sort keeps
earlier elements first. -/
def insertDesc (x : String) : List String → List String
  | [] => [x]
  | y :: ys => if pyStrLeb y x then x :: y :: ys else y :: insertDesc x ys

/-- Stable descending sort by filename.  Python's
`list.sort(key=lambda x: x.name, reverse=True)` is a stable descending
sort; stable insertion sort computes the same list. -/
def sortDesc : List String → List String
  | [] => []
  | x :: xs => insertDesc x (sortDesc xs)

/-- `ConfigDiffChecker.get_all_backups_for_device`: `files` is the backup
directory's contents in filesystem (glob) order — empty when the directory
does not exist.  Matching filenames are sorted by name, newest
(lexicographically greatest) first. -/
def get_all_backups_for_device (files : List String) (device_name : String) :
    List String :=
  sortDesc (files.filter (fun f => globMatches device_name f))

/-- The two dictionary shapes returned by `compare_latest_two_backups`:
the insufficient-backups record and a `compare_configs` result extended
with the `backups_compared` entry (previous and latest filenames). -/
inductive LatestTwoResult where
  | insufficient (error : String) (device : String) (backups_available : Nat)
  | compared (result : ComparisonResult) (previous latest : String)
deriving DecidableEq, Repr

/-- `ConfigDiffChecker.compare_latest_two_backups`. -/
def compare_latest_two_backups (patterns : List String) (files : List String)
    (fs : String → Option String) (now : String) (device_name : String) :
    LatestTwoResult :=
  let backup_files := get_all_backups_for_device files device_name
  if backup_files.length < 2 then
    .insufficient
      ("Insufficient backups: " ++ toString backup_files.length ++
        " found, need at least 2")
      device_name backup_files.length
  else
    let latest_backup := backup_files.getD 0 ""
    let previous_backup := backup_files.getD 1 ""
    .compared
      (compare_configs patterns fs now previous_backup latest_backup
        device_name)
      previous_backup latest_backup

/-! ## Fleet backup orchestrator (`MockNetworkBackupTool`) -/

/-- One entry of the `devices` list loaded from `devices.yaml`
(credential fields elided). -/
structure Device where
  name : String
  host : String
  device_type : String
deriving DecidableEq, Repr

/-- The `{'name': ..., 'host': ...}` summaries appended to the fleet
result's `success` / `failed` lists. -/
structure DeviceSummary where
  name : String
  host : String
deriving DecidableEq, Repr

/-- The `results` dictionary of `backup_all_devices` (its constant
`'type': 'mock_backup'` entry is elided). -/
structure FleetBackupResult where
  success : List DeviceSummary
  failed : List DeviceSummary
  timestamp : String
  total_devices : Nat
deriving DecidableEq, Repr

/-- `MockNetworkBackupTool.backup_single_device`.  `conn` is the result of
`connect_to_device` (`none` on simulated connection failure), `config` the
result of `get_device_config` (`none` on simulated retrieval failure) and
`timestamp` the formatted current time.  Returns the Python `True`/`False`
together with the names of the files written.  Note `if not config` treats
an empty configuration string like a failure. -/
def backup_single_device (device : Device) (conn : Option Unit)
    (config : Option String) (timestamp : String) : Bool × List String :=
  match conn with
  | none => (false, [])
  | some _ =>
    match config with
    | none => (false, [])
    | some cfg =>
      if cfg = "" then (false, [])
      else
        let filename := device.name ++ "_" ++ timestamp ++ ".cfg"
        (true, [filename, device.name ++ "_info.json"])

/-- `MockNetworkBackupTool.backup_all_devices`.  `env i` gives the mock
session's behaviour for the `i`-th device processed (connection result and
retrieved configuration) and `ts i` the timestamp taken for it;
`run_timestamp` is the fleet run's `datetime.now().isoformat()`.  The
`backup_results.json` artifact persists this same record. -/
def backup_all_devices (devices : List Device)
    (env : Nat → Option Unit × Option String) (ts : Nat → String)
    (run_timestamp : String) : FleetBackupResult :=
  devices.enum.foldl
    (fun results p =>
      if (backup_single_device p.2 (env p.1).1 (env p.1).2 (ts p.1)).1 then
        { results with success := results.success ++ [⟨p.2.name, p.2.host⟩] }
      else
        { results with failed := results.failed ++ [⟨p.2.name, p.2.host⟩] })
    { success := []
      failed := []
      timestamp := run_timestamp
      total_devices := devices.length }

/-! ## Snapshot filenames and capture timestamps -/

/-- A capture time at second resolution, as fed to
`datetime.now().strftime("%Y%m%d_%H%M%S")`. -/
structure Timestamp where
  year : Nat
  month : Nat
  day : Nat
  hour : Nat
  minute : Nat
  second : Nat
deriving DecidableEq, Repr

/-- Field bounds guaranteed for any real `datetime` value (weaker calendar
bounds suffice for the fixed-width formatting argument). -/
def Timestamp.valid (t : Timestamp) : Prop :=
  t.year < 10000 ∧ t.month < 100 ∧ t.day < 100 ∧
  t.hour < 100 ∧ t.minute < 100 ∧ t.second < 100

/-- `t1` was captured strictly earlier than `t2`: lexicographic order on
(year, month, day, hour, minute, second). -/
def Timestamp.chronoBefore (t1 t2 : Timestamp) : Prop :=
  t1.year < t2.year ∨ (t1.year = t2.year ∧
    (t1.month < t2.month ∨ (t1.month = t2.month ∧
      (t1.day < t2.day ∨ (t1.day = t2.day ∧
        (t1.hour < t2.hour ∨ (t1.hour = t2.hour ∧
          (t1.minute < t2.minute ∨ (t1.minute = t2.minute ∧
            t1.second < t2.second)))))))))

instance (t1 t2 : Timestamp) : Decidable (t1.chronoBefore t2) := by
  unfold Timestamp.chronoBefore; infer_instance

instance (t : Timestamp) : Decidable t.valid := by
  unfold Timestamp.valid; infer_instance

/-- Fixed-width, zero-padded decimal rendering (`k` digits, most
significant first), as produced by `strftime`'s `%Y`/`%m`/… directives. -/
def padDec : Nat → Nat → List Char
  | 0, _ => []
  | k + 1, n => Nat.digitChar (n / 10 ^ k) :: padDec k (n % 10 ^ k)

/-- `t.strftime("%Y%m%d_%H%M%S")`. -/
def strftime_ts (t : Timestamp) : String :=
  (padDec 4 t.year ++ padDec 2 t.month ++ padDec 2 t.day ++ ['_'] ++
    padDec 2 t.hour ++ padDec 2 t.minute ++ padDec 2 t.second).asString

/-- The snapshot filename written by `backup_single_device`:
`f"{device['name']}_{timestamp}.cfg"`. -/
def snapshot_filename (device_name : String) (t : Timestamp) : String :=
  device_name ++ "_" ++ strftime_ts t ++ ".cfg"

/-! ## Helper notions used to state the claims -/

/-- A blank line: empty or consisting only of whitespace. -/
def isBlank (s : String) : Bool :=
  s.toList.all isPySpace

/-- Remove a single trailing `'\n'`, when present. -/
def dropTrailingNL (s : String) : String :=
  if s.toList.getLast? = some '\n' then s.toList.dropLast.asString else s

example : strftime_ts ⟨2024, 3, 7, 9, 30, 5⟩ = "20240307_093005" := by decide
example : snapshot_filename "sw" ⟨2024, 3, 7, 9, 30, 5⟩
    = "sw_20240307_093005.cfg" := by decide
example : get_all_backups_for_device
    ["sw_20240101_000000.cfg", "sw_20240103_000000.cfg",
     "sw_20240102_000000.cfg", "other_20240101_000000.cfg", "sw_x.txt"] "sw"
  = ["sw_20240103_000000.cfg", "sw_20240102_000000.cfg",
     "sw_20240101_000000.cfg"] := by decide

/-! ## Lemmas about the text normalizer -/

theorem foldl_cond_append {α : Type} (p : α → Bool) (l : List α) :
    ∀ acc : List α,
      l.foldl (fun acc a => if p a then acc else acc ++ [a]) acc
        = acc ++ l.filter (fun a => !p a) := by
  induction l with
  | nil => intro acc; simp
  | cons a l ih =>
    intro acc
    cases hp : p a <;> simp [List.foldl_cons, hp, ih]

/-- The accumulator loop of `filter_ignored_lines` keeps, in order, exactly
the lines that match no ignore pattern. -/
theorem filtered_lines_eq_filter (patterns : List String)
    (config_content : String) :
    filtered_lines patterns config_content
      = (splitlines config_content).filter
          (fun line => !matchesIgnore patterns line) := by
  unfold filtered_lines
  exact foldl_cond_append _ _ []

theorem matchesIgnore_iff (patterns : List String) (line : String) :
    matchesIgnore patterns line = true
      ↔ ∃ p ∈ patterns, py_startswith (py_strip line) p = true := by
  simp [matchesIgnore]

theorem matchesIgnore_perm {patterns₁ patterns₂ : List String}
    (h : patterns₁.Perm patterns₂) (line : String) :
    matchesIgnore patterns₁ line = matchesIgnore patterns₂ line := by
  rw [Bool.eq_iff_iff, matchesIgnore_iff, matchesIgnore_iff]
  constructor
  · rintro ⟨p, hp, hpre⟩; exact ⟨p, h.mem_iff.mp hp, hpre⟩
  · rintro ⟨p, hp, hpre⟩; exact ⟨p, h.mem_iff.mpr hp, hpre⟩

theorem filter_ignored_lines_perm {patterns₁ patterns₂ : List String}
    (h : patterns₁.Perm patterns₂) (config_content : String) :
    filter_ignored_lines patterns₁ config_content
      = filter_ignored_lines patterns₂ config_content := by
  unfold filter_ignored_lines
  rw [filtered_lines_eq_filter, filtered_lines_eq_filter]
  congr 2
  exact List.filter_congr fun line _ => by rw [matchesIgnore_perm h]

theorem stripL_of_all_space {l : List Char} (h : ∀ c ∈ l, isPySpace c = true) :
    stripL l = [] := by
  unfold stripL
  rw [List.dropWhile_eq_nil_iff.mpr fun c hc => h c hc]
  simp

/-- With every pattern non-empty, a blank line matches no pattern. -/
theorem matchesIgnore_blank {patterns : List String}
    (hne : ∀ p ∈ patterns, p ≠ "") {line : String}
    (hblank : isBlank line = true) :
    matchesIgnore patterns line = false := by
  rw [← Bool.not_eq_true, matchesIgnore_iff]
  rintro ⟨p, hp, hpre⟩
  have hstrip : py_strip line = "" := by
    unfold py_strip
    rw [stripL_of_all_space (by simpa [isBlank, List.all_eq_true] using hblank)]
    rfl
  rw [hstrip] at hpre
  unfold py_startswith at hpre
  have : p.toList = [] := by
    cases htl : p.toList with
    | nil => rfl
    | cons c cs => rw [htl] at hpre; simp at hpre
  exact hne p hp (String.toList_inj.mp (by simpa using this))

/-- C8: the normalizer drops exactly the lines whose whitespace-stripped form
starts with at least one ignore pattern — the kept lines are the original,
unstripped lines in order — and, the drop test being a disjunction of prefix
tests over the pattern list, the output of `filter_ignored_lines` is
invariant under any permutation of the pattern list. -/
theorem normalizer_drop_characterization :
    (∀ (patterns : List String) (text : String),
        filtered_lines patterns text
          = (splitlines text).filter (fun line => !matchesIgnore patterns line))
    ∧ (∀ (patterns : List String) (line : String),
        matchesIgnore patterns line = true
          ↔ ∃ p ∈ patterns, py_startswith (py_strip line) p = true)
    ∧ (∀ (patterns₁ patterns₂ : List String) (text : String),
        patterns₁.Perm patterns₂ →
          filter_ignored_lines patterns₁ text
            = filter_ignored_lines patterns₂ text) :=
  ⟨filtered_lines_eq_filter, matchesIgnore_iff,
    fun _ _ _ h => filter_ignored_lines_perm h _⟩

theorem normalizer_drop_characterization_witness :
    (["!", "#"] : List String).Perm ["#", "!"]
    ∧ filter_ignored_lines ["!", "#"] "! a\nhost\n# b"
        = filter_ignored_lines ["#", "!"] "! a\nhost\n# b" :=
  have hperm : (["!", "#"] : List String).Perm ["#", "!"] :=
    List.Perm.swap "#" "!" []
  ⟨hperm, normalizer_drop_characterization.2.2 ["!", "#"] ["#", "!"]
    "! a\nhost\n# b" hperm⟩

/-- C10: when every ignore pattern is a non-empty string — as the default
pattern set is — blank (empty or whitespace-only) lines match no pattern and
are never filtered out: the kept-lines list retains every occurrence of any
blank line. -/
theorem blank_lines_never_filtered :
    (∀ p ∈ default_patterns, p ≠ "")
    ∧ (∀ (patterns : List String) (line : String),
        (∀ p ∈ patterns, p ≠ "") → isBlank line = true →
          matchesIgnore patterns line = false)
    ∧ (∀ (patterns : List String) (text line : String),
        (∀ p ∈ patterns, p ≠ "") → isBlank line = true →
          (filtered_lines patterns text).count line
            = (splitlines text).count line) := by
  refine ⟨by decide, fun patterns line h hb => matchesIgnore_blank h hb, ?_⟩
  intro patterns text line h hb
  rw [filtered_lines_eq_filter]
  exact List.count_filter (by simp [matchesIgnore_blank h hb])

theorem blank_lines_never_filtered_witness :
    (∀ p ∈ default_patterns, p ≠ "")
    ∧ isBlank " \t " = true
    ∧ matchesIgnore default_patterns " \t " = false
    ∧ (filtered_lines default_patterns "a\n \t \n!x").count " \t "
        = (splitlines "a\n \t \n!x").count " \t " :=
  ⟨by decide, by decide,
    blank_lines_never_filtered.2.1 default_patterns " \t " (by decide)
      (by decide),
    blank_lines_never_filtered.2.2 default_patterns "a\n \t \n!x" " \t "
      (by decide) (by decide)⟩

/-! ## Lemmas about `splitlines` and `'\n'.join` -/

theorem splitlinesGo_nonbreak {c : Char} (hc : isLineBreak c = false)
    (t cur : List Char) :
    splitlinesGo (c :: t) cur = splitlinesGo t (c :: cur) := by
  cases t with
  | nil => simp [splitlinesGo, hc]
  | cons d t2 => simp [splitlinesGo, hc]

theorem splitlinesGo_newline (t cur : List Char) :
    splitlinesGo ('\n' :: t) cur =
      if t = [] then [cur.reverse] else cur.reverse :: splitlinesGo t [] := by
  cases t with
  | nil => simp [splitlinesGo, isLineBreak]
  | cons d t2 => simp [splitlinesGo, isLineBreak]

theorem splitlinesGo_chunk {l : List Char}
    (hl : ∀ c ∈ l, isLineBreak c = false) :
    ∀ s cur : List Char,
      splitlinesGo (l ++ s) cur = splitlinesGo s (l.reverse ++ cur) := by
  induction l with
  | nil => intro s cur; simp
  | cons c l ih =>
    intro s cur
    have hc : isLineBreak c = false := hl c (List.mem_cons_self _ _)
    rw [List.cons_append, splitlinesGo_nonbreak hc,
      ih (fun d hd => hl d (List.mem_cons_of_mem _ hd))]
    simp

/-- A break-free character list is a single line. -/
theorem splitlinesGo_breakfree_single {l : List Char}
    (hl : ∀ c ∈ l, isLineBreak c = false) :
    splitlinesGo l [] = [l] := by
  have h := splitlinesGo_chunk hl [] []
  rw [List.append_nil, List.append_nil] at h
  rw [h]
  simp [splitlinesGo]

/-- Every line produced by `splitlinesGo` contains no line break. -/
theorem splitlinesGo_mem_breakfree :
    ∀ s cur : List Char, (∀ c ∈ cur, isLineBreak c = false) →
      ∀ l ∈ splitlinesGo s cur, ∀ c ∈ l, isLineBreak c = false := by
  intro s cur
  induction s, cur using splitlinesGo.induct with
  | case1 cur =>
    intro hcur l hl c hc
    simp only [splitlinesGo, List.mem_singleton] at hl
    exact hcur c (by simpa [hl] using hc)
  | case2 c cur hbrk =>
    intro hcur l hl d hd
    simp only [splitlinesGo, hbrk, if_true, List.mem_singleton] at hl
    exact hcur d (by simpa [hl] using hd)
  | case3 c cur hbrk d hrn =>
    intro hcur l hl e he
    simp only [splitlinesGo, hbrk, if_true, hrn, List.mem_singleton] at hl
    exact hcur e (by simpa [hl] using he)
  | case4 c cur hbrk d t2 hrn ht2 ih =>
    intro hcur l hl e he
    simp only [splitlinesGo, hbrk, if_true, hrn, if_neg ht2,
      List.mem_cons] at hl
    rcases hl with rfl | hl
    · exact hcur e (by simpa using he)
    · exact ih (by simp) l hl e he
  | case5 c cur hbrk d t2 hrn ih =>
    intro hcur l hl e he
    rw [Bool.not_eq_true] at hrn
    simp only [splitlinesGo, hbrk, if_true, hrn, Bool.false_eq_true,
      if_false, List.mem_cons] at hl
    rcases hl with rfl | hl
    · exact hcur e (by simpa using he)
    · exact ih (by simp) l hl e he
  | case6 c t cur hbrk ih =>
    intro hcur l hl e he
    rw [Bool.not_eq_true] at hbrk
    rw [splitlinesGo_nonbreak hbrk] at hl
    refine ih ?_ l hl e he
    intro x hx
    rcases List.mem_cons.mp hx with rfl | hx
    · exact hbrk
    · exact hcur x hx

theorem splitlinesL_mem_breakfree {s : List Char} :
    ∀ l ∈ splitlinesL s, ∀ c ∈ l, isLineBreak c = false := by
  unfold splitlinesL
  by_cases h : s = []
  · simp [h]
  · rw [if_neg h]
    exact splitlinesGo_mem_breakfree s [] (by simp)

/-- Every line of `splitlines` is break-free. -/
theorem splitlines_mem_breakfree {s line : String}
    (hline : line ∈ splitlines s) : ∀ c ∈ line.toList, isLineBreak c = false := by
  obtain ⟨l, hl, rfl⟩ := List.mem_map.mp hline
  rw [List.toList_asString]
  exact splitlinesL_mem_breakfree l hl

theorem joinC_single (l : List Char) : joinC [l] = l := by
  simp [joinC, List.intercalate, List.intersperse]

theorem joinC_cons (l : List Char) {ls : List (List Char)} (h : ls ≠ []) :
    joinC (l :: ls) = l ++ '\n' :: joinC ls := by
  cases ls with
  | nil => exact absurd rfl h
  | cons m ls' => simp [joinC, List.intercalate, List.intersperse]

theorem joinC_eq_nil {ls : List (List Char)} (h : ls ≠ []) :
    joinC ls = [] ↔ ls = [[]] := by
  cases ls with
  | nil => exact absurd rfl h
  | cons l ls' =>
    cases ls' with
    | nil => rw [joinC_single]; simp
    | cons m ls'' => rw [joinC_cons _ (by simp)]; simp

theorem joinC_concat {init : List (List Char)} (h : init ≠ [])
    (x : List Char) : joinC (init ++ [x]) = joinC init ++ '\n' :: x := by
  induction init with
  | nil => exact absurd rfl h
  | cons l init' ih =>
    cases init' with
    | nil =>
      have : ([l] ++ [x] : List (List Char)) = l :: [x] := rfl
      rw [this, joinC_cons l (by simp), joinC_single, joinC_single]
    | cons m init'' =>
      have h1 : (m :: init'' : List (List Char)) ≠ [] := by simp
      have h2 : (m :: init'' ++ [x] : List (List Char)) ≠ [] := by simp
      rw [List.cons_append, joinC_cons l h2, ih h1, joinC_cons l h1]
      simp

/-- Splitting a `'\n'.join` of break-free lines recovers the lines, except
that one trailing empty line is absorbed by the terminal `'\n'`. -/
theorem splitlinesL_joinC :
    ∀ ls : List (List Char), ls ≠ [] →
      (∀ l ∈ ls, ∀ c ∈ l, isLineBreak c = false) →
      splitlinesL (joinC ls)
        = if ls.getLast? = some [] then ls.dropLast else ls := by
  intro ls
  induction ls with
  | nil => intro h; exact absurd rfl h
  | cons l ls ih =>
    intro _ hbf
    cases ls with
    | nil =>
      by_cases hl : l = []
      · subst hl; simp [joinC_single, splitlinesL]
      · rw [joinC_single]
        unfold splitlinesL
        rw [if_neg hl,
          splitlinesGo_breakfree_single (hbf l (List.mem_cons_self _ _))]
        simp [List.getLast?_singleton, hl]
    | cons m ls' =>
      rw [joinC_cons _ (by simp)]
      have hne : l ++ '\n' :: joinC (m :: ls') ≠ [] := by simp
      unfold splitlinesL
      rw [if_neg hne,
        splitlinesGo_chunk (fun c hc => hbf l (List.mem_cons_self _ _) c hc),
        List.append_nil, splitlinesGo_newline]
      by_cases hX : joinC (m :: ls') = []
      · have : m :: ls' = [[]] := (joinC_eq_nil (by simp)).mp hX
        rw [hX]
        simp [this]
      · rw [if_neg hX]
        have hrec := ih (by simp)
          (fun x hx => hbf x (List.mem_cons_of_mem _ hx))
        unfold splitlinesL at hrec
        rw [if_neg hX] at hrec
        rw [hrec]
        simp only [List.reverse_reverse]
        by_cases hlast : (m :: ls').getLast? = some []
        · rw [if_pos hlast, if_pos (by simpa using hlast)]
          simp
        · rw [if_neg hlast, if_neg (by simpa using hlast)]

/-! ## Idempotence of the normalizer, up to one trailing newline -/

theorem filtered_lines_mem_keep {patterns : List String} {text line : String}
    (h : line ∈ filtered_lines patterns text) :
    line ∈ splitlines text ∧ matchesIgnore patterns line = false := by
  rw [filtered_lines_eq_filter] at h
  have h1 := List.mem_filter.mp h
  exact ⟨h1.1, by simpa using h1.2⟩

theorem map_toList_asString (ls : List (List Char)) :
    (ls.map List.asString).map String.toList = ls := by
  rw [List.map_map]
  conv_rhs => rw [← List.map_id ls]
  apply List.map_congr_left
  intro l _
  rfl

/-- Re-filtering the output of `filter_ignored_lines` changes it only by
absorbing one trailing newline: the kept lines match no pattern, but
`'\n'.join` followed by `splitlines` swallows a trailing empty line. -/
theorem filter_ignored_lines_twice (patterns : List String) (text : String) :
    filter_ignored_lines patterns (filter_ignored_lines patterns text)
      = dropTrailingNL (filter_ignored_lines patterns text) := by
  by_cases htext : text = ""
  · subst htext
    simp [filter_ignored_lines, dropTrailingNL]
  · have hFdef : filter_ignored_lines patterns text
        = joinNL (filtered_lines patterns text) := by
      rw [filter_ignored_lines, if_neg htext]
    set K := filtered_lines patterns text with hK
    set L := K.map String.toList with hL
    have hbfL : ∀ l ∈ L, ∀ c ∈ l, isLineBreak c = false := by
      intro l hl c hc
      obtain ⟨k, hk, rfl⟩ := List.mem_map.mp hl
      exact splitlines_mem_breakfree (filtered_lines_mem_keep hk).1 c hc
    have hFtoList : (filter_ignored_lines patterns text).toList = joinC L := by
      rw [hFdef, joinNL, List.toList_asString]
    by_cases hnil : joinC L = []
    · have hFempty : filter_ignored_lines patterns text = "" := by
        rw [hFdef, joinNL, ← hL, hnil]
        rfl
      rw [hFempty]
      simp [filter_ignored_lines, dropTrailingNL]
    · have hFne : filter_ignored_lines patterns text ≠ "" := by
        intro hFe
        rw [hFe] at hFtoList
        exact hnil (by simpa using hFtoList.symm)
      have hLne : L ≠ [] := by
        intro h0; rw [h0] at hnil; exact hnil rfl
      have hsplitF : splitlines (filter_ignored_lines patterns text)
          = (splitlinesL (joinC L)).map List.asString := by
        rw [splitlines, hFtoList]
      have hjoin := splitlinesL_joinC L hLne hbfL
      -- any line re-split from the joined output is a kept line of `K`
      have hsubL : ∀ l ∈ splitlinesL (joinC L), l ∈ L := by
        rw [hjoin]
        by_cases hlast : L.getLast? = some []
        · rw [if_pos hlast]; exact fun l hl => L.dropLast_sublist.subset hl
        · rw [if_neg hlast]; exact fun l hl => hl
      have hkeepF : ∀ x ∈ splitlines (filter_ignored_lines patterns text),
          matchesIgnore patterns x = false := by
        intro x hx
        rw [hsplitF] at hx
        obtain ⟨l, hl, rfl⟩ := List.mem_map.mp hx
        obtain ⟨k, hk, rfl⟩ := List.mem_map.mp (hsubL l hl)
        rw [String.asString_toList]
        exact (filtered_lines_mem_keep hk).2
      have hLHS : filter_ignored_lines patterns
            (filter_ignored_lines patterns text)
          = joinNL ((splitlinesL (joinC L)).map List.asString) := by
        rw [filter_ignored_lines, if_neg hFne, filtered_lines_eq_filter,
          List.filter_eq_self.mpr (fun x hx => by simp [hkeepF x hx]),
          hsplitF]
      obtain ⟨init, lst, hconcat⟩ :
          ∃ init lst, L = init ++ [lst] := by
        rcases List.eq_nil_or_concat L with h0 | ⟨m, b, h0⟩
        · exact absurd h0 hLne
        · exact ⟨m, b, by rw [h0, List.concat_eq_append]⟩
      by_cases hlast : L.getLast? = some []
      · -- the joined output ends in '\n'; the second pass drops it
        have hlst : lst = [] := by
          rw [hconcat, List.getLast?_concat] at hlast
          exact (Option.some_inj.mp hlast)
        subst hlst
        have hinit : init ≠ [] := by
          intro h0
          rw [hconcat, h0] at hnil
          exact hnil (by simp [joinC_single])
        have hJL : joinC L = joinC init ++ ['\n'] := by
          rw [hconcat, joinC_concat hinit]
        rw [hLHS, hjoin, if_pos hlast, hconcat, List.dropLast_concat,
          dropTrailingNL, hFtoList, hJL]
        rw [List.getLast?_concat, if_pos rfl, List.dropLast_concat,
          joinNL, map_toList_asString]
      · -- no trailing empty line: the second pass reproduces the output
        have hlst : lst ≠ [] := by
          intro h0
          rw [hconcat, h0, List.getLast?_concat] at hlast
          exact hlast rfl
        have hlstL : lst ∈ L := by rw [hconcat]; simp
        have hcne : ∀ c ∈ lst, c ≠ '\n' := by
          intro c hc h0
          have := hbfL lst hlstL c hc
          rw [h0] at this
          simp [isLineBreak] at this
        have hlastJ : (joinC L).getLast? ≠ some '\n' := by
          obtain ⟨m, c, hmc⟩ : ∃ m c, lst = m ++ [c] := by
            rcases List.eq_nil_or_concat lst with h0 | ⟨m, c, h0⟩
            · exact absurd h0 hlst
            · exact ⟨m, c, by rw [h0, List.concat_eq_append]⟩
          have hcval : c ≠ '\n' := hcne c (by rw [hmc]; simp)
          rcases eq_or_ne init [] with h0 | h0
          · rw [hconcat, h0, List.nil_append, joinC_single, hmc,
              List.getLast?_concat]
            simp [hcval]
          · have hsplit : joinC init ++ '\n' :: (m ++ [c])
                = (joinC init ++ '\n' :: m) ++ [c] := by simp
            rw [hconcat, joinC_concat h0, hmc, hsplit, List.getLast?_concat]
            simp [hcval]
        rw [hLHS, hjoin, if_neg hlast, dropTrailingNL, hFtoList,
          if_neg hlastJ, hFdef, joinNL, joinNL, map_toList_asString, ← hL]

/-- C4 (counterexample): the normalizer is not idempotent as claimed — for
`text = "a\n\n"` with the default patterns, one pass yields `"a\n"` and a
second pass yields `"a"`, because `'\n'.join` followed by `splitlines`
absorbs the trailing empty line. -/
theorem normalizer_not_idempotent_cex :
    filter_ignored_lines default_patterns
        (filter_ignored_lines default_patterns "a\n\n")
      ≠ filter_ignored_lines default_patterns "a\n\n" := by decide

/-- C4 (amended): re-filtering the normalizer output equals the output with
a single trailing newline removed when one is present; in particular the
normalizer is idempotent on every text whose filtered output does not end in
a newline. -/
theorem normalizer_idempotent_up_to_trailing_newline
    (patterns : List String) (text : String) :
    filter_ignored_lines patterns (filter_ignored_lines patterns text)
      = dropTrailingNL (filter_ignored_lines patterns text) :=
  filter_ignored_lines_twice patterns text

/-! ## Diff engine claims -/

theorem foldl_cond_append_map {α β : Type} (p : α → Bool) (g : α → β)
    (l : List α) : ∀ acc : List β,
      l.foldl (fun acc a => if p a then acc ++ [g a] else acc) acc
        = acc ++ (l.filter p).map g := by
  induction l with
  | nil => intro acc; simp
  | cons a l ih => intro acc; cases hp : p a <;> simp [hp, ih]

theorem computeDiffs_eq (lines1 lines2 : List String) :
    computeDiffs lines1 lines2
      = ((List.range (max lines1.length lines2.length)).filter
            (fun i => lines1.getD i "" != lines2.getD i "")).map
          (fun i =>
            { line_number := i + 1
              old_value := lines1.getD i ""
              new_value := lines2.getD i "" }) := by
  unfold computeDiffs
  exact foldl_cond_append_map _ _ _ []

/-- C2: the diff loop emits exactly one record `{i+1, lines1[i], lines2[i]}`
(with `""` for an out-of-range side) for each index `i` below the longer
length at which the lines differ — membership characterizes the records,
line numbers are strictly increasing so each differing index contributes
exactly once — and one extra trailing line yields a single record whose
`old_value` is the empty string. -/
theorem positional_diff_characterization :
    (∀ (lines1 lines2 : List String) (d : DiffRecord),
        d ∈ computeDiffs lines1 lines2
          ↔ ∃ i < max lines1.length lines2.length,
              lines1.getD i "" ≠ lines2.getD i ""
              ∧ d = { line_number := i + 1
                      old_value := lines1.getD i ""
                      new_value := lines2.getD i "" })
    ∧ (∀ lines1 lines2 : List String,
        (computeDiffs lines1 lines2).Pairwise
          (fun d e => d.line_number < e.line_number))
    ∧ computeDiffs (splitlines "a\nb") (splitlines "a\nb\nc")
        = [{ line_number := 3, old_value := "", new_value := "c" }] := by
  refine ⟨?_, ?_, by decide⟩
  · intro lines1 lines2 d
    rw [computeDiffs_eq]
    simp only [List.mem_map, List.mem_filter, List.mem_range, bne_iff_ne,
      ne_eq]
    constructor
    · rintro ⟨i, ⟨hi, hne⟩, rfl⟩
      exact ⟨i, hi, hne, rfl⟩
    · rintro ⟨i, hi, hne, rfl⟩
      exact ⟨i, ⟨hi, hne⟩, rfl⟩
  · intro lines1 lines2
    rw [computeDiffs_eq]
    refine List.Pairwise.map _ (fun a b h => by simpa using Nat.succ_lt_succ h)
      (List.Pairwise.filter _ ?_)
    exact List.pairwise_lt_range _

/-- C1 (counterexample): on an I/O failure `compare_configs` returns
`identical = false` together with an empty `differences` list, so the
invariant `identical ↔ (differences is empty)` fails for such results. -/
theorem identical_iff_cex :
    ¬ (((compare_configs default_patterns (fun _ => none) "t"
          "a.cfg" "b.cfg" "dev").identical = true)
        ↔ (compare_configs default_patterns (fun _ => none) "t"
            "a.cfg" "b.cfg" "dev").differences = []) := by decide

/-- C1 (amended): `identical ↔ (differences is empty)` holds for every
`ComparisonResult` produced from successfully read inputs (`error` absent);
a result produced on an I/O failure instead has `identical = false` with
`differences` empty (and `error` set), so there the equivalence fails in
the empty-implies-identical direction. -/
theorem identical_iff_no_differences (patterns : List String)
    (fs : String → Option String) (now p1 p2 dev : String) :
    ((compare_configs patterns fs now p1 p2 dev).error = none →
      ((compare_configs patterns fs now p1 p2 dev).identical = true
        ↔ (compare_configs patterns fs now p1 p2 dev).differences = []))
    ∧ ((compare_configs patterns fs now p1 p2 dev).error ≠ none →
      (compare_configs patterns fs now p1 p2 dev).identical = false
        ∧ (compare_configs patterns fs now p1 p2 dev).differences = []) := by
  unfold compare_configs
  cases h1 : fs p1 <;> cases h2 : fs p2 <;>
    simp [List.length_eq_zero]

theorem identical_iff_no_differences_witness :
    (compare_configs default_patterns (fun _ => some "hostname x") "t"
        "a.cfg" "b.cfg" "dev").error = none
    ∧ ((compare_configs default_patterns (fun _ => some "hostname x") "t"
          "a.cfg" "b.cfg" "dev").identical = true
        ↔ (compare_configs default_patterns (fun _ => some "hostname x") "t"
            "a.cfg" "b.cfg" "dev").differences = [])
    ∧ (compare_configs default_patterns (fun _ => none) "t" "a.cfg" "b.cfg"
        "dev").identical = false
    ∧ (compare_configs default_patterns (fun _ => none) "t" "a.cfg" "b.cfg"
        "dev").differences = [] :=
  ⟨by decide,
    (identical_iff_no_differences default_patterns
        (fun _ => some "hostname x") "t" "a.cfg" "b.cfg" "dev").1 (by decide),
    ((identical_iff_no_differences default_patterns (fun _ => none)
        "t" "a.cfg" "b.cfg" "dev").2 (by decide)).1,
    ((identical_iff_no_differences default_patterns (fun _ => none)
        "t" "a.cfg" "b.cfg" "dev").2 (by decide)).2⟩

/-- C5: when reading either input path fails, `compare_configs` lands in its
`except` branch and returns (never raises) a result with
`identical = false`, the `error` field set, and `differences` empty. -/
theorem comparison_error_caught (patterns : List String)
    (fs : String → Option String) (now p1 p2 dev : String)
    (h : fs p1 = none ∨ fs p2 = none) :
    (compare_configs patterns fs now p1 p2 dev).identical = false
    ∧ (compare_configs patterns fs now p1 p2 dev).error.isSome = true
    ∧ (compare_configs patterns fs now p1 p2 dev).differences = [] := by
  unfold compare_configs
  cases h1 : fs p1 <;> cases h2 : fs p2 <;> simp_all

theorem comparison_error_caught_witness :
    ((fun _ : String => (none : Option String)) "a.cfg" = none
      ∨ (fun _ : String => (none : Option String)) "b.cfg" = none)
    ∧ (compare_configs default_patterns (fun _ => none) "t" "a.cfg" "b.cfg"
        "dev").identical = false
    ∧ (compare_configs default_patterns (fun _ => none) "t" "a.cfg" "b.cfg"
        "dev").error.isSome = true
    ∧ (compare_configs default_patterns (fun _ => none) "t" "a.cfg" "b.cfg"
        "dev").differences = [] :=
  have h := comparison_error_caught default_patterns (fun _ => none) "t"
    "a.cfg" "b.cfg" "dev" (Or.inl rfl)
  ⟨Or.inl rfl, h.1, h.2.1, h.2.2⟩

/-! ## The string order used for filename sorting -/

theorem charListLt_iff_lex :
    ∀ l1 l2 : List Char, charListLt l1 l2 = true ↔ List.Lex (· < ·) l1 l2 := by
  intro l1
  induction l1 with
  | nil =>
    intro l2
    cases l2 with
    | nil => simp [charListLt]
    | cons b bs =>
      simp only [charListLt, true_iff]
      exact List.Lex.nil
  | cons a as ih =>
    intro l2
    cases l2 with
    | nil =>
      simp only [charListLt, Bool.false_eq_true, false_iff]
      intro h; cases h
    | cons b bs =>
      unfold charListLt
      by_cases hab : a < b
      · simp only [if_pos hab, true_iff]
        exact List.Lex.rel hab
      · by_cases hba : b < a
        · simp only [if_neg hab, if_pos hba, Bool.false_eq_true, false_iff]
          intro h
          cases h with
          | rel h => exact hab h
          | cons h => exact lt_irrefl a hba
        · have heq : a = b := le_antisymm (not_lt.mp hba) (not_lt.mp hab)
          subst heq
          rw [if_neg hab, if_neg hba, ih bs]
          exact (List.Lex.cons_iff).symm

theorem charListLt_iff_string_lt (x y : String) :
    charListLt x.toList y.toList = true ↔ x < y := by
  rw [String.lt_iff_toList_lt]
  exact charListLt_iff_lex x.toList y.toList

theorem pyStrLeb_iff (y x : String) : pyStrLeb y x = true ↔ y ≤ x := by
  rw [pyStrLeb, Bool.not_eq_true', Bool.eq_false_iff, ne_eq,
    charListLt_iff_string_lt, not_lt]

/-! ## Correctness of the stable descending sort -/

theorem insertDesc_perm (x : String) :
    ∀ l : List String, (insertDesc x l).Perm (x :: l) := by
  intro l
  induction l with
  | nil => simp [insertDesc]
  | cons y ys ih =>
    unfold insertDesc
    by_cases h : pyStrLeb y x = true
    · rw [if_pos h]
    · rw [if_neg h]
      exact (ih.cons y).trans (List.Perm.swap x y ys)

theorem sortDesc_perm : ∀ l : List String, (sortDesc l).Perm l := by
  intro l
  induction l with
  | nil => rfl
  | cons x xs ih => exact (insertDesc_perm x (sortDesc xs)).trans (ih.cons x)

theorem insertDesc_pairwise {x : String} :
    ∀ {l : List String}, l.Pairwise (fun a b => b ≤ a) →
      (insertDesc x l).Pairwise (fun a b => b ≤ a) := by
  intro l
  induction l with
  | nil => intro _; simp [insertDesc]
  | cons y ys ih =>
    intro h
    rcases List.pairwise_cons.mp h with ⟨hy, hys⟩
    unfold insertDesc
    by_cases hle : pyStrLeb y x = true
    · rw [if_pos hle]
      refine List.pairwise_cons.mpr ⟨?_, h⟩
      intro b hb
      rcases List.mem_cons.mp hb with rfl | hb
      · exact (pyStrLeb_iff b x).mp hle
      · exact le_trans (hy b hb) ((pyStrLeb_iff y x).mp hle)
    · rw [if_neg hle]
      refine List.pairwise_cons.mpr ⟨?_, ih hys⟩
      intro b hb
      have hmem := (insertDesc_perm x ys).mem_iff.mp hb
      have hxy : x ≤ y :=
        le_of_not_le fun hyx => hle ((pyStrLeb_iff y x).mpr hyx)
      rcases List.mem_cons.mp hmem with rfl | hb'
      · exact hxy
      · exact hy b hb'

theorem sortDesc_pairwise : ∀ l : List String,
    (sortDesc l).Pairwise (fun a b => b ≤ a) := by
  intro l
  induction l with
  | nil => simp [sortDesc]
  | cons x xs ih => exact insertDesc_pairwise ih

/-! ## Fixed-width timestamps sort like their capture times -/

theorem padDec_length : ∀ k n : Nat, (padDec k n).length = k := by
  intro k
  induction k with
  | zero => intro n; rfl
  | succ k ih => intro n; simp [padDec, ih]

theorem digitChar_strictMono : ∀ a b : Fin 10, a.val < b.val →
    Nat.digitChar a.val < Nat.digitChar b.val := by decide

theorem padDec_lt : ∀ (k : Nat) {a b : Nat}, a < b → b < 10 ^ k →
    List.Lex (· < ·) (padDec k a) (padDec k b) := by
  intro k
  induction k with
  | zero =>
    intro a b hab hb
    rw [pow_zero] at hb
    omega
  | succ k ih =>
    intro a b hab hb
    have hpow : (10 : Nat) ^ (k + 1) = 10 ^ k * 10 := pow_succ 10 k
    have hbq : b / 10 ^ k < 10 := Nat.div_lt_of_lt_mul (hpow ▸ hb)
    have haq : a / 10 ^ k < 10 :=
      lt_of_le_of_lt (Nat.div_le_div_right hab.le) hbq
    unfold padDec
    rcases lt_or_eq_of_le (Nat.div_le_div_right hab.le) with hqlt | hqeq
    · exact List.Lex.rel (digitChar_strictMono ⟨_, haq⟩ ⟨_, hbq⟩ hqlt)
    · rw [hqeq]
      refine List.Lex.cons
        (ih ?_ (Nat.mod_lt _ (pow_pos (by norm_num) k)))
      have ha : a % 10 ^ k + 10 ^ k * (a / 10 ^ k) = a := Nat.mod_add_div a _
      have hbm : b % 10 ^ k + 10 ^ k * (b / 10 ^ k) = b := Nat.mod_add_div b _
      rw [hqeq] at ha
      omega

theorem lex_append_same {r : Char → Char → Prop} (p : List Char)
    {l1 l2 : List Char} (h : List.Lex r l1 l2) :
    List.Lex r (p ++ l1) (p ++ l2) := by
  induction p with
  | nil => exact h
  | cons c p ih => exact List.Lex.cons ih

theorem lex_append_of_length_eq {r : Char → Char → Prop} :
    ∀ {l1 l2 : List Char}, List.Lex r l1 l2 → l1.length = l2.length →
      ∀ s1 s2 : List Char, List.Lex r (l1 ++ s1) (l2 ++ s2) := by
  intro l1 l2 h
  induction h with
  | nil => intro hlen; simp at hlen
  | rel hr => intro _ s1 s2; exact List.Lex.rel hr
  | cons h ih =>
    intro hlen s1 s2
    exact List.Lex.cons (ih (by simpa using hlen) s1 s2)

theorem strftime_toList (t : Timestamp) :
    (strftime_ts t).toList
      = padDec 4 t.year ++ (padDec 2 t.month ++ (padDec 2 t.day
        ++ ('_' :: (padDec 2 t.hour ++ (padDec 2 t.minute
          ++ padDec 2 t.second))))) := by
  rw [strftime_ts, List.toList_asString]
  simp [List.append_assoc]

theorem strftime_toList_length (t : Timestamp) :
    (strftime_ts t).toList.length = 15 := by
  rw [strftime_toList]
  simp [padDec_length]

/-- A strictly earlier capture time gives a lexicographically strictly
smaller `"%Y%m%d_%H%M%S"` string: the fields are fixed-width and
zero-padded. -/
theorem strftime_lt {t1 t2 : Timestamp} (h1 : t1.valid) (h2 : t2.valid)
    (hlt : t1.chronoBefore t2) :
    List.Lex (· < ·) (strftime_ts t1).toList (strftime_ts t2).toList := by
  obtain ⟨hy1, hmo1, hd1, hh1, hmi1, hs1⟩ := h1
  obtain ⟨hy2, hmo2, hd2, hh2, hmi2, hs2⟩ := h2
  rw [strftime_toList, strftime_toList]
  have hlen : ∀ (k a b : Nat), (padDec k a).length = (padDec k b).length := by
    intro k a b; rw [padDec_length, padDec_length]
  rcases hlt with
    hy | ⟨hyeq, hmo | ⟨hmoeq, hd | ⟨hdeq, hh | ⟨hheq, hmi | ⟨hmieq, hs⟩⟩⟩⟩⟩
  · exact lex_append_of_length_eq
      (padDec_lt 4 hy (by simpa using hy2)) (hlen 4 _ _) _ _
  · rw [← hyeq]
    apply lex_append_same
    exact lex_append_of_length_eq
      (padDec_lt 2 hmo (by simpa using hmo2)) (hlen 2 _ _) _ _
  · rw [← hyeq, ← hmoeq]
    apply lex_append_same
    apply lex_append_same
    exact lex_append_of_length_eq
      (padDec_lt 2 hd (by simpa using hd2)) (hlen 2 _ _) _ _
  · rw [← hyeq, ← hmoeq, ← hdeq]
    apply lex_append_same
    apply lex_append_same
    apply lex_append_same
    exact List.Lex.cons (lex_append_of_length_eq
      (padDec_lt 2 hh (by simpa using hh2)) (hlen 2 _ _) _ _)
  · rw [← hyeq, ← hmoeq, ← hdeq, ← hheq]
    apply lex_append_same
    apply lex_append_same
    apply lex_append_same
    refine List.Lex.cons ?_
    apply lex_append_same
    exact lex_append_of_length_eq
      (padDec_lt 2 hmi (by simpa using hmi2)) (hlen 2 _ _) _ _
  · rw [← hyeq, ← hmoeq, ← hdeq, ← hheq, ← hmieq]
    apply lex_append_same
    apply lex_append_same
    apply lex_append_same
    refine List.Lex.cons ?_
    apply lex_append_same
    apply lex_append_same
    exact padDec_lt 2 hs (by simpa using hs2)

/-- The later-captured snapshot's filename is the strictly greater string. -/
theorem snapshot_filename_lt (device_name : String) {t1 t2 : Timestamp}
    (h1 : t1.valid) (h2 : t2.valid) (hlt : t1.chronoBefore t2) :
    snapshot_filename device_name t1 < snapshot_filename device_name t2 := by
  rw [String.lt_iff_toList_lt]
  have hform : ∀ t : Timestamp, (snapshot_filename device_name t).toList
      = device_name.toList
          ++ ('_' :: ((strftime_ts t).toList ++ ".cfg".toList)) := by
    intro t
    show (device_name ++ "_" ++ strftime_ts t ++ ".cfg").data = _
    simp [String.data_append, List.append_assoc, String.toList]
  rw [hform, hform]
  show List.Lex (· < ·) _ _
  apply lex_append_same
  apply List.Lex.cons
  exact lex_append_of_length_eq (strftime_lt h1 h2 hlt)
    (by rw [strftime_toList_length, strftime_toList_length]) _ _

/-! ## Store and selector claims -/

/-- C6: with fewer than two stored snapshots (`n` of them),
`compare_latest_two_backups` returns — never throws — the structured
insufficient-backups record with the count substituted into the message and
`backups_available = n`. -/
theorem insufficient_backups_result (patterns : List String)
    (files : List String) (fs : String → Option String) (now device : String)
    (h : (get_all_backups_for_device files device).length < 2) :
    compare_latest_two_backups patterns files fs now device
      = .insufficient
          ("Insufficient backups: "
            ++ toString (get_all_backups_for_device files device).length
            ++ " found, need at least 2")
          device (get_all_backups_for_device files device).length := by
  unfold compare_latest_two_backups
  rw [if_pos h]

theorem insufficient_backups_result_witness :
    (get_all_backups_for_device ["sw_20240101_000000.cfg"] "sw").length < 2
    ∧ compare_latest_two_backups default_patterns ["sw_20240101_000000.cfg"]
        (fun _ => none) "t" "sw"
      = .insufficient "Insufficient backups: 1 found, need at least 2" "sw"
          1 :=
  ⟨by decide,
    (insufficient_backups_result default_patterns ["sw_20240101_000000.cfg"]
        (fun _ => none) "t" "sw" (by decide)).trans (by decide)⟩

/-- C7: `get_all_backups_for_device` returns exactly the device's matching
snapshot files sorted by filename in descending string order (so an empty
store yields an empty list, not an error), and for two snapshots of one
device with distinct capture timestamps the later capture's
`{device}_{YYYYMMDD_HHMMSS}.cfg` filename is the strictly greater string. -/
theorem backup_listing_and_filename_order :
    (∀ (files : List String) (device_name : String),
        (get_all_backups_for_device files device_name).Pairwise
          (fun a b => b ≤ a))
    ∧ (∀ (files : List String) (device_name f : String),
        f ∈ get_all_backups_for_device files device_name
          ↔ f ∈ files ∧ globMatches device_name f = true)
    ∧ (∀ device_name : String, get_all_backups_for_device [] device_name = [])
    ∧ (∀ (device_name : String) (t1 t2 : Timestamp),
        t1.valid → t2.valid → t1.chronoBefore t2 →
          snapshot_filename device_name t1
            < snapshot_filename device_name t2) := by
  refine ⟨fun files device => sortDesc_pairwise _, ?_, fun d => rfl,
    fun d t1 t2 h1 h2 hlt => snapshot_filename_lt d h1 h2 hlt⟩
  intro files device f
  rw [get_all_backups_for_device, (sortDesc_perm _).mem_iff, List.mem_filter]

theorem backup_listing_and_filename_order_witness :
    (⟨2024, 1, 2, 3, 4, 5⟩ : Timestamp).valid
    ∧ (⟨2024, 1, 2, 3, 4, 6⟩ : Timestamp).valid
    ∧ (⟨2024, 1, 2, 3, 4, 5⟩ : Timestamp).chronoBefore ⟨2024, 1, 2, 3, 4, 6⟩
    ∧ snapshot_filename "sw" ⟨2024, 1, 2, 3, 4, 5⟩
        < snapshot_filename "sw" ⟨2024, 1, 2, 3, 4, 6⟩ :=
  ⟨by decide, by decide, by decide,
    backup_listing_and_filename_order.2.2.2 "sw" ⟨2024, 1, 2, 3, 4, 5⟩
      ⟨2024, 1, 2, 3, 4, 6⟩ (by decide) (by decide) (by decide)⟩

/-! ## Fleet orchestrator claims -/

/-- The per-device step of `backup_all_devices`, as passed to `foldl`. -/
theorem backup_foldl_char (env : Nat → Option Unit × Option String)
    (ts : Nat → String) :
    ∀ (l : List (Nat × Device)) (acc : FleetBackupResult),
      l.foldl
        (fun results p =>
          if (backup_single_device p.2 (env p.1).1 (env p.1).2 (ts p.1)).1 then
            { results with
                success := results.success ++ [⟨p.2.name, p.2.host⟩] }
          else
            { results with
                failed := results.failed ++ [⟨p.2.name, p.2.host⟩] })
        acc
      = { acc with
          success := acc.success
            ++ (l.filter (fun p =>
                  (backup_single_device p.2 (env p.1).1 (env p.1).2
                    (ts p.1)).1)).map (fun p => ⟨p.2.name, p.2.host⟩)
          failed := acc.failed
            ++ (l.filter (fun p =>
                  !(backup_single_device p.2 (env p.1).1 (env p.1).2
                    (ts p.1)).1)).map (fun p => ⟨p.2.name, p.2.host⟩) } := by
  intro l
  induction l with
  | nil => intro acc; simp
  | cons p l ih =>
    intro acc
    rw [List.foldl_cons]
    cases hp : (backup_single_device p.2 (env p.1).1 (env p.1).2 (ts p.1)).1
    · rw [if_neg (by simp [hp]), ih]
      simp [hp]
    · rw [if_pos (by simp [hp]), ih]
      simp [hp]

theorem backup_all_devices_eq (devices : List Device)
    (env : Nat → Option Unit × Option String) (ts : Nat → String)
    (rts : String) :
    backup_all_devices devices env ts rts
      = { success := ((devices.enumFrom 0).filter (fun p =>
              (backup_single_device p.2 (env p.1).1 (env p.1).2
                (ts p.1)).1)).map (fun p => ⟨p.2.name, p.2.host⟩)
          failed := ((devices.enumFrom 0).filter (fun p =>
              !(backup_single_device p.2 (env p.1).1 (env p.1).2
                (ts p.1)).1)).map (fun p => ⟨p.2.name, p.2.host⟩)
          timestamp := rts
          total_devices := devices.length } := by
  rw [backup_all_devices, List.enum_eq_enumFrom, backup_foldl_char]
  simp

/-- C3: for every fleet run the success and failed lists, taken by device
name, partition the input device multiset — together they are a permutation
of the input names, so nothing is duplicated or omitted (and they are
`Nodup` whenever the input names are) — `total_devices` is the input length,
and the empty fleet yields the empty result record with no error. -/
theorem fleet_partition_invariant :
    (∀ (devices : List Device) (env : Nat → Option Unit × Option String)
        (ts : Nat → String) (rts : String),
      ((backup_all_devices devices env ts rts).success.map DeviceSummary.name
          ++ (backup_all_devices devices env ts rts).failed.map
              DeviceSummary.name).Perm (devices.map Device.name)
      ∧ (backup_all_devices devices env ts rts).total_devices
          = devices.length
      ∧ ((devices.map Device.name).Nodup →
          ((backup_all_devices devices env ts rts).success.map
              DeviceSummary.name
            ++ (backup_all_devices devices env ts rts).failed.map
                DeviceSummary.name).Nodup))
    ∧ (∀ (env : Nat → Option Unit × Option String) (ts : Nat → String)
        (rts : String),
        backup_all_devices [] env ts rts
          = { success := [], failed := [], timestamp := rts,
              total_devices := 0 }) := by
  have hperm : ∀ (devices : List Device)
      (env : Nat → Option Unit × Option String) (ts : Nat → String)
      (rts : String),
      ((backup_all_devices devices env ts rts).success.map DeviceSummary.name
          ++ (backup_all_devices devices env ts rts).failed.map
              DeviceSummary.name).Perm (devices.map Device.name) := by
    intro devices env ts rts
    rw [backup_all_devices_eq]
    simp only [List.map_map, ← List.map_append]
    have h1 := (List.filter_append_perm
      (fun p : Nat × Device =>
        (backup_single_device p.2 (env p.1).1 (env p.1).2 (ts p.1)).1)
      (devices.enumFrom 0)).map
        (fun p : Nat × Device => (DeviceSummary.name ∘ fun p : Nat × Device =>
          (⟨p.2.name, p.2.host⟩ : DeviceSummary)) p)
    refine h1.trans ?_
    have h2 : (devices.enumFrom 0).map
        (fun p : Nat × Device => p.2.name)
        = devices.map Device.name := by
      rw [show (fun p : Nat × Device => p.2.name)
          = Device.name ∘ Prod.snd from rfl, ← List.map_map,
        List.enumFrom_map_snd]
    exact h2 ▸ List.Perm.rfl
  refine ⟨fun devices env ts rts =>
    ⟨hperm devices env ts rts, by rw [backup_all_devices_eq],
      fun hnd => ((hperm devices env ts rts).nodup_iff).mpr hnd⟩,
    fun env ts rts => rfl⟩

theorem fleet_partition_invariant_witness :
    ((List.map Device.name [⟨"sw1", "h1", "cisco_ios"⟩,
        ⟨"sw2", "h2", "cisco_ios"⟩]).Nodup)
    ∧ (((backup_all_devices
            [⟨"sw1", "h1", "cisco_ios"⟩, ⟨"sw2", "h2", "cisco_ios"⟩]
            (fun i => if i = 0 then (some (), some "cfg") else (none, none))
            (fun _ => "20240101_000000") "t").success.map DeviceSummary.name
        ++ ((backup_all_devices
            [⟨"sw1", "h1", "cisco_ios"⟩, ⟨"sw2", "h2", "cisco_ios"⟩]
            (fun i => if i = 0 then (some (), some "cfg") else (none, none))
            (fun _ => "20240101_000000") "t").failed.map
              DeviceSummary.name)).Nodup) :=
  ⟨by decide,
    (fleet_partition_invariant.1
        [⟨"sw1", "h1", "cisco_ios"⟩, ⟨"sw2", "h2", "cisco_ios"⟩]
        (fun i => if i = 0 then (some (), some "cfg") else (none, none))
        (fun _ => "20240101_000000") "t").2.2 (by decide)⟩

/-- C9: a device whose connection and retrieval both succeed but whose
retrieved configuration text is the empty string is treated as failed —
`backup_single_device` returns `False` having written no file (the
`if not config` falsy test catches `""`), and in a fleet run such a device
is recorded in the `failed` list. -/
theorem empty_config_treated_as_failure :
    (∀ (device : Device) (timestamp : String),
        backup_single_device device (some ()) (some "") timestamp
          = (false, []))
    ∧ (∀ (devices : List Device) (env : Nat → Option Unit × Option String)
        (ts : Nat → String) (rts : String) (i : Nat)
        (h : i < devices.length),
        env i = (some (), some "") →
          devices[i].name
            ∈ (backup_all_devices devices env ts rts).failed.map
                DeviceSummary.name) := by
  refine ⟨fun device timestamp => rfl, ?_⟩
  intro devices env ts rts i h henv
  rw [backup_all_devices_eq]
  have hlen : i < (devices.enumFrom 0).length := by
    rw [List.enumFrom_length]; exact h
  have hmem : (i, devices[i]) ∈ devices.enumFrom 0 := by
    have hget : (devices.enumFrom 0)[i] = (i, devices[i]) := by
      simp [List.getElem_enumFrom devices 0 i hlen]
    exact hget ▸ List.getElem_mem hlen
  have hfail :
      (backup_single_device devices[i] (env i).1 (env i).2 (ts i)).1
        = false := by
    rw [henv]
    rfl
  rw [List.map_map]
  refine List.mem_map.mpr ⟨(i, devices[i]), ?_, rfl⟩
  exact List.mem_filter.mpr ⟨hmem, by simp [hfail]⟩

theorem empty_config_treated_as_failure_witness :
    (fun _ : Nat => ((some (), some "") : Option Unit × Option String)) 0
        = (some (), some "")
    ∧ backup_single_device ⟨"sw1", "h1", "cisco_ios"⟩ (some ()) (some "")
        "20240101_000000" = (false, [])
    ∧ (([⟨"sw1", "h1", "cisco_ios"⟩] : List Device).get ⟨0, by decide⟩).name
        ∈ (backup_all_devices [⟨"sw1", "h1", "cisco_ios"⟩]
            (fun _ => (some (), some "")) (fun _ => "20240101_000000")
            "t").failed.map DeviceSummary.name :=
  ⟨rfl, empty_config_treated_as_failure.1 ⟨"sw1", "h1", "cisco_ios"⟩
      "20240101_000000",
    empty_config_treated_as_failure.2 [⟨"sw1", "h1", "cisco_ios"⟩]
      (fun _ => (some (), some "")) (fun _ => "20240101_000000") "t" 0
      (by decide) rfl⟩

end BevoNet
